import Mathlib

/-!
Shallow embedding of the AudioKeyConverter media orchestration core
(`src-tauri/src/lib.rs`).  External effects (filesystem, process spawning,
executable location) are modelled by an explicit environment `Env`; each
embedded command returns its result together with the ordered trace of
binary resolutions and process spawns it performed.
-/

namespace AudioKeyConverter

/-- Whitespace test used by Rust `str::trim` (`char::is_whitespace`). -/
def isWs (c : Char) : Bool := c.isWhitespace

/-- Drop leading whitespace (left half of Rust `str::trim`). -/
def trimL (l : List Char) : List Char := l.dropWhile isWs

/-- Drop trailing whitespace (right half of Rust `str::trim`). -/
def trimR (l : List Char) : List Char := (l.reverse.dropWhile isWs).reverse

/-- Character-list version of Rust `str::trim`. -/
def trimChars (l : List Char) : List Char := trimR (trimL l)

/-- Embedding of Rust `str::trim`. -/
def rustTrim (s : String) : String := ⟨trimChars s.data⟩

/-- Tests whether the first list is a prefix of the second
(helper for substring search). -/
def listPre : List Char → List Char → Bool
  | [], _ => true
  | _ :: _, [] => false
  | a :: ta, b :: tb => a == b && listPre ta tb

/-- Tests whether `pat` occurs as a contiguous sublist of the second list
(helper for Rust `str::contains`). -/
def listSub (pat : List Char) : List Char → Bool
  | [] => listPre pat []
  | c :: t => listPre pat (c :: t) || listSub pat t

/-- Embedding of Rust `str::contains` with a string pattern:
`strContains s pat` is true when `pat` occurs somewhere inside `s`. -/
def strContains (s pat : String) : Bool := listSub pat.data s.data

/-- Embedding of Rust `str::split` at a single separator character, on
character lists. -/
def splitCh (sep : Char) : List Char → List (List Char)
  | [] => [[]]
  | c :: t =>
    if c = sep then [] :: splitCh sep t
    else
      match splitCh sep t with
      | [] => [[c]]
      | h :: r => (c :: h) :: r

/-- Embedding of Rust `str::split('\n')` on character lists. -/
def splitNl (l : List Char) : List (List Char) := splitCh '\n' l

/-- Embedding of Rust `str::split` at a separator character, on strings. -/
def strSplit (s : String) (sep : Char) : List String :=
  (splitCh sep s.data).map (fun l => ⟨l⟩)

/-- ASCII lowercasing (Rust `str::to_lowercase` restricted to ASCII, which is
all the code compares). -/
def strLower (s : String) : String := ⟨s.data.map Char.toLower⟩

/-- ASCII uppercasing (Rust `str::to_uppercase` restricted to ASCII). -/
def strUpper (s : String) : String := ⟨s.data.map Char.toUpper⟩

/-- Embedding of Rust `Path::file_name` (with `"/"` as the separator; the
platform-specific separator of `std::path` is abstracted to `"/"`).  A path
whose final component is `..` (or which has no component at all) has no file
name; empty and `.` components are skipped as in `Path::components`. -/
def rustFileName (p : String) : Option String :=
  let comps := (strSplit p '/').filter (fun c => !(c == "" || c == "."))
  match comps.getLast? with
  | none => none
  | some c => if c == ".." then none else some c

/-- Embedding of Rust `Path::extension`: the part of the file name after the
last dot, absent when there is no dot or when the only dot is the leading dot
of a hidden file. -/
def rustExtension (p : String) : Option String :=
  match rustFileName p with
  | none => none
  | some name =>
    let parts := strSplit name '.'
    if parts.length < 2 then none
    else if parts.length == 2 && parts.head? == some "" then none
    else parts.getLast?

/-- Embedding of `file_name().unwrap_or_default().to_string_lossy()`:
the file name, or the empty string when there is none. -/
def fileNameLossy (p : String) : String := (rustFileName p).getD ""

/-- Result of an external process that did launch: exit-status classification
and captured output streams (the fields of `std::process::Output` used by the
code, with `from_utf8_lossy` applied). -/
structure ProcResult where
  success : Bool
  stdout : String
  stderr : String
  deriving DecidableEq

/-- Observable effect of the engine: resolving a bundled binary on disk, or
spawning (attempting to launch) an external process with an argument list. -/
inductive Event where
  | resolveBin (tool : String)
  | spawn (prog : String) (args : List String)
  deriving DecidableEq

/-- Environment abstracting the effectful surface of the Rust code: filesystem
existence and size metadata, the directory holding the running executable
(`std::env::current_exe` with the final component popped; `Except.error` is a
failure of `current_exe` carrying the OS error text), the platform flag,
process execution (`tokio::process::Command::output`, where `Except.error` is
a spawn failure with the OS error text), the decimal rendering of the `f64`
pitch factor by `format!`, and `str::parse::<f64>` (its numeric value modelled
over `ℚ`). -/
structure Env where
  fsExists : String → Bool
  currentExeDir : Except String String
  isWindows : Bool
  metadata : String → Except String Nat
  run : String → List String → Except String ProcResult
  showFactor : Int → String
  parseF64 : String → Option ℚ

/-- Platform-appropriate executable name: `<tool>.exe` on the Windows target,
the bare tool name elsewhere. -/
def exeName (e : Env) (base : String) : String :=
  if e.isWindows then base ++ ".exe" else base

/-- Common shape of `get_bundled_ffmpeg_path`, `get_bundled_ffprobe_path` and
`get_bundled_ytdlp_path`: join the executable directory with the platform
tool name and require that the file exists, with no PATH fallback. -/
def getBundledPath (e : Env) (base notFoundMsg : String) : Except String String :=
  match e.currentExeDir with
  | .error msg => .error ("Failed to get executable directory: " ++ msg)
  | .ok dir =>
    let p := dir ++ "/" ++ exeName e base
    if e.fsExists p then .ok p else .error notFoundMsg

/-- Embedding of `get_bundled_ffmpeg_path`. -/
def get_bundled_ffmpeg_path (e : Env) : Except String String :=
  getBundledPath e "ffmpeg" "FFmpeg binary not found in application directory"

/-- Embedding of `get_bundled_ffprobe_path`. -/
def get_bundled_ffprobe_path (e : Env) : Except String String :=
  getBundledPath e "ffprobe" "FFprobe binary not found in application directory"

/-- Embedding of `get_bundled_ytdlp_path`. -/
def get_bundled_ytdlp_path (e : Env) : Except String String :=
  getBundledPath e "yt-dlp" "yt-dlp binary not found in application directory"

/-- Embedding of the `ConversionOptions` struct. -/
structure ConversionOptions where
  semitones : Int
  output_format : String
  output_path : String
  deriving DecidableEq

/-- Embedding of the `AudioFile` struct (sizes as `Nat`, the parsed `f64`
duration modelled over `ℚ`). -/
structure AudioFile where
  name : String
  path : String
  size : Nat
  duration : Option ℚ
  format : Option String
  deriving DecidableEq

/-- Idealised value of the pitch factor `2.0_f64.powf(semitones as f64 / 12.0)`
computed in `process_audio_file`, modelled over the reals. -/
noncomputable def pitchFactor (n : ℤ) : ℝ := (2 : ℝ) ^ ((n : ℝ) / 12)

/-- The `-af` filter expression built in `process_audio_file`:
`asetrate=44100*{pitch_factor},aresample=44100`, with the decimal rendering of
the factor supplied by the environment. -/
def pitchFilter (e : Env) (n : Int) : String :=
  "asetrate=44100*" ++ e.showFactor n ++ ",aresample=44100"

/-- The argument list passed to the FFmpeg process by `process_audio_file`. -/
def ffmpegArgs (e : Env) (file_path : String) (options : ConversionOptions) : List String :=
  ["-i", file_path,
   "-af", pitchFilter e options.semitones,
   "-f", options.output_format,
   "-y", options.output_path]

/-- The success message of `process_audio_file`:
`Successfully processed {file_name} with {semitones} semitones shift`. -/
def successMsg (file_path : String) (n : Int) : String :=
  "Successfully processed " ++ fileNameLossy file_path ++ " with "
    ++ toString n ++ " semitones shift"

/-- Embedding of the `process_audio_file` command, paired with the trace of
binary resolutions and process spawns it performs. -/
def process_audio_file (e : Env) (file_path : String) (options : ConversionOptions) :
    Except String String × List Event :=
  if !(e.fsExists file_path) then
    (.error "Input file does not exist", [])
  else
    match get_bundled_ffmpeg_path e with
    | .error msg => (.error msg, [.resolveBin "ffmpeg"])
    | .ok ffmpeg_path =>
      let args := ffmpegArgs e file_path options
      let ev := [Event.resolveBin "ffmpeg", Event.spawn ffmpeg_path args]
      match e.run ffmpeg_path args with
      | .error osErr => (.error ("Failed to execute FFmpeg: " ++ osErr), ev)
      | .ok r =>
        if !r.success then
          (.error ("FFmpeg error: " ++ r.stderr), ev)
        else
          (.ok (successMsg file_path options.semitones), ev)

/-- The argument list passed to the FFprobe process by `get_audio_duration`. -/
def ffprobeArgs (file_path : String) : List String :=
  ["-v", "quiet", "-show_entries", "format=duration", "-of", "csv=p=0", file_path]

/-- Embedding of `get_audio_duration`, paired with its effect trace. -/
def get_audio_duration (e : Env) (file_path : String) :
    Except String ℚ × List Event :=
  match get_bundled_ffprobe_path e with
  | .error msg => (.error msg, [.resolveBin "ffprobe"])
  | .ok ffprobe_path =>
    let args := ffprobeArgs file_path
    let ev := [Event.resolveBin "ffprobe", Event.spawn ffprobe_path args]
    match e.run ffprobe_path args with
    | .error osErr => (.error ("Failed to execute FFprobe: " ++ osErr), ev)
    | .ok r =>
      if !r.success then
        (.error "Failed to get audio duration", ev)
      else
        match e.parseF64 (rustTrim r.stdout) with
        | none => (.error "Failed to parse duration: invalid float literal", ev)
        | some d => (.ok d, ev)

/-- Embedding of the `get_audio_info` command, paired with its effect trace. -/
def get_audio_info (e : Env) (file_path : String) :
    Except String AudioFile × List Event :=
  if !(e.fsExists file_path) then
    (.error "File does not exist", [])
  else
    match e.metadata file_path with
    | .error msg => (.error msg, [])
    | .ok size =>
      let file_name := (rustFileName file_path).getD "Unknown"
      let dres := get_audio_duration e file_path
      let format := (rustExtension file_path).map strUpper
      (.ok ⟨file_name, file_path, size, dres.1.toOption, format⟩, dres.2)

/-- Shape of the JSON object returned by `download_youtube_audio`
(`{"success": .., "message": .., "file": ..}`, with `"file": null` as
`none`). -/
structure DownloadResult where
  success : Bool
  message : String
  file : Option AudioFile
  deriving DecidableEq

/-- The argument list passed to the yt-dlp process by
`download_youtube_audio`. -/
def ytdlpArgs (output_template url : String) : List String :=
  ["-x", "--audio-format", "mp3", "--audio-quality", "0",
   "--print", "after_move:filepath", "-o", output_template, url]

/-- The candidate file path recovered from the downloader output:
`stdout.trim().split('\n')`, then the last line, trimmed.  (`split` on a
nonempty separator never yields an empty list, so the `none` branch is
unreachable; it returns the empty string, which the caller rejects exactly as
the unreachable Rust branch would be skipped.) -/
def lastCandidate (stdout : String) : String :=
  match (splitNl (trimChars stdout.data)).getLast? with
  | some l => ⟨trimChars l⟩
  | none => ""

/-- Embedding of the `download_youtube_audio` command, paired with its effect
trace. -/
def download_youtube_audio (e : Env) (url output_dir : String) :
    Except String DownloadResult × List Event :=
  if !(strContains url "youtube.com") && !(strContains url "youtu.be") then
    (.error "Invalid YouTube URL", [])
  else
    match get_bundled_ytdlp_path e with
    | .error msg => (.error msg, [.resolveBin "yt-dlp"])
    | .ok ytdlp_path =>
      let output_template := output_dir ++ "/%(title)s.%(ext)s"
      let args := ytdlpArgs output_template url
      let ev := [Event.resolveBin "yt-dlp", Event.spawn ytdlp_path args]
      match e.run ytdlp_path args with
      | .error osErr => (.error ("Failed to execute yt-dlp: " ++ osErr), ev)
      | .ok r =>
        if !r.success then
          (.error ("yt-dlp error: " ++ r.stderr), ev)
        else
          let fp := lastCandidate r.stdout
          let msg := "Successfully downloaded: " ++ url
          if fp != "" && e.fsExists fp then
            match get_audio_info e fp with
            | (.ok info, ev2) => (.ok ⟨true, msg, some info⟩, ev ++ ev2)
            | (.error _, ev2) => (.ok ⟨true, msg, none⟩, ev ++ ev2)
          else
            (.ok ⟨true, msg, none⟩, ev)

/-- The fixed supported-extension set used by the file-drop filter in
`run()`. -/
def supportedExts : List String := ["mp3", "wav", "flac", "m4a", "aac", "ogg"]

/-- Embedding of the file-drop filter predicate in `run()`: lowercase the
extension (empty when absent) and test membership in `supportedExts`. -/
def isAudioExt (path : String) : Bool :=
  supportedExts.contains (strLower ((rustExtension path).getD ""))

/-- Test environment with no files at all. -/
def envNone : Env :=
  ⟨fun _ => false, .ok "/app", false, fun _ => .error "io error",
   fun _ _ => .error "not reached", fun _ => "1", fun _ => none⟩

/-- Test environment with an existing `.txt` input, a bundled ffmpeg, and a
transcoder run that exits with status zero. -/
def envNote : Env :=
  ⟨fun p => p == "/music/note.txt" || p == "/app/ffmpeg", .ok "/app", false,
   fun _ => .error "metadata unavailable", fun _ _ => .ok ⟨true, "", ""⟩,
   fun _ => "1", fun _ => none⟩

/-- Test environment with an existing `.mp3` input, a bundled ffmpeg, and a
transcoder run that exits with status zero. -/
def envTune : Env :=
  ⟨fun p => p == "/music/tune.mp3" || p == "/app/ffmpeg", .ok "/app", false,
   fun _ => .error "metadata unavailable", fun _ _ => .ok ⟨true, "", ""⟩,
   fun _ => "1.122462048309373", fun _ => none⟩

/-- Test environment whose transcoder run exits with a nonzero status and the
stderr text `codec not found`. -/
def envCodec : Env :=
  ⟨fun p => p == "/music/tune.mp3" || p == "/app/ffmpeg", .ok "/app", false,
   fun _ => .error "metadata unavailable",
   fun _ _ => .ok ⟨false, "", "codec not found"⟩,
   fun _ => "1", fun _ => none⟩

/-- Test environment with an existing media file but no bundled ffprobe, so
the duration probe fails at binary resolution. -/
def envProbe : Env :=
  ⟨fun p => p == "/music/a.mp3", .ok "/app", false, fun _ => .ok 2048,
   fun _ _ => .error "not reached", fun _ => "1", fun _ => none⟩

/-- Test environment with a bundled yt-dlp whose run exits with status zero
after printing two progress lines and then the final on-disk path, which
exists and whose metadata reads as 1234 bytes. -/
def envDl : Env :=
  ⟨fun p => p == "/app/yt-dlp" || p == "/dl/song.mp3", .ok "/app", false,
   fun _ => .ok 1234,
   fun _ _ => .ok ⟨true, "log one\nlog two\n/dl/song.mp3", ""⟩,
   fun _ => "1", fun _ => none⟩

/-- Test environment with a bundled yt-dlp whose run exits with status zero
but prints no line naming an existing file. -/
def envDlNoFile : Env :=
  ⟨fun p => p == "/app/yt-dlp", .ok "/app", false,
   fun _ => .error "io error",
   fun _ _ => .ok ⟨true, "[download] 100%\ndone", ""⟩,
   fun _ => "1", fun _ => none⟩

/-- C2: when the input path does not exist, `process_audio_file` returns the
file-not-found error immediately with an empty effect trace: no binary is
resolved, no process is spawned, and no other side effect happens. -/
theorem C2_missing_file_rejected_without_effects
    (e : Env) (fp : String) (o : ConversionOptions)
    (h : e.fsExists fp = false) :
    process_audio_file e fp o = (.error "Input file does not exist", []) := by
  simp [process_audio_file, h]

/-- C2 witness: the theorem applied to a concrete missing file. -/
theorem C2_missing_file_rejected_without_effects_witness :
    envNone.fsExists "/missing.mp3" = false ∧
    process_audio_file envNone "/missing.mp3" ⟨2, "mp3", "/o.mp3"⟩ =
      (.error "Input file does not exist", []) :=
  ⟨rfl, C2_missing_file_rejected_without_effects envNone "/missing.mp3"
    ⟨2, "mp3", "/o.mp3"⟩ rfl⟩

/-- C8: when the transcoder exits with a nonzero status, `process_audio_file`
returns an error carrying the captured stderr verbatim (`FFmpeg error: ` ++
stderr), so the error detail contains the stderr text unreformatted; for the
stderr `codec not found` the detail contains exactly that text. -/
theorem C8_nonzero_exit_propagates_stderr
    (e : Env) (fp mp : String) (o : ConversionOptions) (r : ProcResult)
    (hfs : e.fsExists fp = true)
    (hm : get_bundled_ffmpeg_path e = .ok mp)
    (hrun : e.run mp (ffmpegArgs e fp o) = .ok r)
    (hfail : r.success = false) :
    (process_audio_file e fp o).1 = .error ("FFmpeg error: " ++ r.stderr) ∧
    (∃ pre post, "FFmpeg error: " ++ r.stderr = pre ++ r.stderr ++ post) ∧
    (r.stderr = "codec not found" →
      (process_audio_file e fp o).1 = .error "FFmpeg error: codec not found") := by
  have hres : (process_audio_file e fp o).1 = .error ("FFmpeg error: " ++ r.stderr) := by
    simp [process_audio_file, hfs, hm, hrun, hfail]
  refine ⟨hres, ⟨"FFmpeg error: ", "", by simp⟩, fun hstderr => ?_⟩
  rw [hres, hstderr]
  rfl

/-- C8 witness: the theorem applied to a concrete failing transcoder whose
stderr is `codec not found`. -/
theorem C8_nonzero_exit_propagates_stderr_witness :
    (process_audio_file envCodec "/music/tune.mp3" ⟨2, "mp3", "/o.mp3"⟩).1 =
      .error "FFmpeg error: codec not found" :=
  (C8_nonzero_exit_propagates_stderr envCodec "/music/tune.mp3" "/app/ffmpeg"
    ⟨2, "mp3", "/o.mp3"⟩ ⟨false, "", "codec not found"⟩ rfl rfl rfl rfl).2.2 rfl

/-- C9 counterexample: on success the returned description is
`Successfully processed tune.mp3 with 2 semitones shift`, which does not
contain the destination output path `/out/shifted.mp3`, refuting the claim
that the description summarizes the destination. -/
theorem C9_counterexample :
    (process_audio_file envTune "/music/tune.mp3" ⟨2, "mp3", "/out/shifted.mp3"⟩).1 =
      .ok "Successfully processed tune.mp3 with 2 semitones shift" ∧
    strContains "Successfully processed tune.mp3 with 2 semitones shift"
      "/out/shifted.mp3" = false :=
  ⟨rfl, rfl⟩

/-- C9 amended: on transcoder success, `process_audio_file` returns a
description containing the source file name and the semitone shift; the
destination output path is not part of the message. -/
theorem C9_success_description
    (e : Env) (fp mp : String) (o : ConversionOptions) (r : ProcResult)
    (hfs : e.fsExists fp = true)
    (hm : get_bundled_ffmpeg_path e = .ok mp)
    (hrun : e.run mp (ffmpegArgs e fp o) = .ok r)
    (hok : r.success = true) :
    (process_audio_file e fp o).1 = .ok (successMsg fp o.semitones) ∧
    successMsg fp o.semitones =
      "Successfully processed " ++ fileNameLossy fp ++ " with "
        ++ toString o.semitones ++ " semitones shift" := by
  constructor
  · simp [process_audio_file, hfs, hm, hrun, hok]
  · rfl

/-- C9 amended witness: the theorem applied to a concrete successful run. -/
theorem C9_success_description_witness :
    (process_audio_file envTune "/music/tune.mp3" ⟨2, "mp3", "/out/shifted.mp3"⟩).1 =
      .ok (successMsg "/music/tune.mp3" 2) :=
  (C9_success_description envTune "/music/tune.mp3" "/app/ffmpeg"
    ⟨2, "mp3", "/out/shifted.mp3"⟩ ⟨true, "", ""⟩ rfl rfl rfl rfl).1

/-- C1 counterexample: `/music/note.txt` has an extension outside the
supported set, yet `process_audio_file` does not return an unsupported-format
error: it resolves the transcoder, spawns it, and succeeds. -/
theorem C1_counterexample :
    isAudioExt "/music/note.txt" = false ∧
    (process_audio_file envNote "/music/note.txt" ⟨0, "mp3", "/out/note.mp3"⟩).1 =
      .ok "Successfully processed note.txt with 0 semitones shift" ∧
    Event.spawn "/app/ffmpeg"
        (ffmpegArgs envNote "/music/note.txt" ⟨0, "mp3", "/out/note.mp3"⟩) ∈
      (process_audio_file envNote "/music/note.txt" ⟨0, "mp3", "/out/note.mp3"⟩).2 := by
  refine ⟨rfl, rfl, ?_⟩
  simp [process_audio_file, envNote, get_bundled_ffmpeg_path, getBundledPath, exeName]

/-- C1 amended: `process_audio_file` performs no extension validation at all;
for every existing input path, whatever its extension, it resolves the
transcoder binary and spawns it (the supported-extension set is enforced only
by the file-drop filter `isAudioExt` of the shell). -/
theorem C1_no_extension_check
    (e : Env) (fp mp : String) (o : ConversionOptions)
    (hfs : e.fsExists fp = true)
    (hm : get_bundled_ffmpeg_path e = .ok mp) :
    (process_audio_file e fp o).2 =
      [Event.resolveBin "ffmpeg", Event.spawn mp (ffmpegArgs e fp o)] := by
  unfold process_audio_file
  rw [hfs, hm]
  cases hr : e.run mp (ffmpegArgs e fp o) with
  | error msg => simp [hr]
  | ok r => cases hs : r.success <;> simp [hr, hs]

/-- C1 amended witness: the theorem applied to a concrete existing `.txt`
input. -/
theorem C1_no_extension_check_witness :
    (process_audio_file envNote "/music/note.txt" ⟨0, "mp3", "/out/note.mp3"⟩).2 =
      [Event.resolveBin "ffmpeg",
       Event.spawn "/app/ffmpeg"
         (ffmpegArgs envNote "/music/note.txt" ⟨0, "mp3", "/out/note.mp3"⟩)] :=
  C1_no_extension_check envNote "/music/note.txt" "/app/ffmpeg"
    ⟨0, "mp3", "/out/note.mp3"⟩ rfl rfl

/-- C3: the pitch multiplier equals `2^(n/12)`, equals `1` exactly at
`n = 0`, and is strictly increasing in the semitone offset; and for
`semitones = 0` the transcoder is still invoked with the `-af` flag and a
nonempty (effectively-identity) filter expression, never an absent one. -/
theorem C3_pitch_plan :
    (∀ n : ℤ, pitchFactor n = (2 : ℝ) ^ ((n : ℝ) / 12)) ∧
    pitchFactor 0 = 1 ∧
    StrictMono pitchFactor ∧
    (∀ (e : Env) (fp : String) (o : ConversionOptions), o.semitones = 0 →
      "-af" ∈ ffmpegArgs e fp o ∧
      pitchFilter e o.semitones ∈ ffmpegArgs e fp o ∧
      pitchFilter e o.semitones ≠ "") := by
  refine ⟨fun n => rfl, ?_, ?_, ?_⟩
  · simp [pitchFactor]
  · intro a b hab
    have h2 : (1 : ℝ) < 2 := by norm_num
    have h12 : (0 : ℝ) < 12 := by norm_num
    have : (a : ℝ) / 12 < (b : ℝ) / 12 :=
      (div_lt_div_iff_of_pos_right h12).mpr (by exact_mod_cast hab)
    exact (Real.rpow_lt_rpow_left_iff h2).mpr this
  · intro e fp o _
    refine ⟨by simp [ffmpegArgs], by simp [ffmpegArgs], fun hcontra => ?_⟩
    have hlen := congrArg String.length hcontra
    simp [pitchFilter, String.length_append] at hlen
    exact absurd hlen.1.1 (by decide)

/-- C3 witness: the invocation part of the theorem at the zero semitone
offset. -/
theorem C3_pitch_plan_witness :
    "-af" ∈ ffmpegArgs envNote "/music/a.mp3" ⟨0, "mp3", "/o.mp3"⟩ ∧
    pitchFilter envNote (0 : Int) ∈ ffmpegArgs envNote "/music/a.mp3" ⟨0, "mp3", "/o.mp3"⟩ ∧
    pitchFilter envNote (0 : Int) ≠ "" :=
  C3_pitch_plan.2.2.2 envNote "/music/a.mp3" ⟨0, "mp3", "/o.mp3"⟩ rfl

/-- C7: for an existing file whose size metadata reads successfully, a failed
duration probe (for any reason) still yields a successful `AudioFile` result
with the duration absent and the size taken from the filesystem metadata. -/
theorem C7_probe_failure_downgraded
    (e : Env) (fp m : String) (sz : Nat)
    (hfs : e.fsExists fp = true)
    (hmeta : e.metadata fp = .ok sz)
    (hprobe : (get_audio_duration e fp).1 = .error m) :
    (get_audio_info e fp).1 =
      .ok ⟨(rustFileName fp).getD "Unknown", fp, sz, none,
           (rustExtension fp).map strUpper⟩ := by
  simp [get_audio_info, hfs, hmeta, hprobe, Except.toOption]

/-- C7 witness: the theorem applied to an environment whose prober binary is
missing, on an existing 2048-byte file. -/
theorem C7_probe_failure_downgraded_witness :
    envProbe.fsExists "/music/a.mp3" = true ∧
    (get_audio_duration envProbe "/music/a.mp3").1 =
      .error "FFprobe binary not found in application directory" ∧
    (get_audio_info envProbe "/music/a.mp3").1 =
      .ok ⟨"a.mp3", "/music/a.mp3", 2048, none, some "MP3"⟩ :=
  ⟨rfl, rfl, C7_probe_failure_downgraded envProbe "/music/a.mp3"
    "FFprobe binary not found in application directory" 2048 rfl rfl rfl⟩

/-- Helper: once the URL check passes, `download_youtube_audio` always records
the downloader binary resolution as its first effect, whatever happens
afterwards. -/
theorem download_resolves_first (e : Env) (url output_dir : String)
    (hv : (!(strContains url "youtube.com") && !(strContains url "youtu.be")) = false) :
    Event.resolveBin "yt-dlp" ∈ (download_youtube_audio e url output_dir).2 := by
  unfold download_youtube_audio
  rw [hv]
  simp only [Bool.false_eq_true, if_false]
  cases hb : get_bundled_ytdlp_path e with
  | error msg => simp
  | ok yp =>
    cases hrun : e.run yp (ytdlpArgs (output_dir ++ "/%(title)s.%(ext)s") url) with
    | error osErr => simp [hrun]
    | ok r =>
      cases hok : r.success with
      | false => simp [hrun, hok]
      | true =>
        simp only [hrun, hok, Bool.not_true, Bool.false_eq_true, if_false]
        set fp := lastCandidate r.stdout with hfp
        by_cases hc : (fp != "" && e.fsExists fp) = true
        · rw [if_pos hc]
          rcases hai : get_audio_info e fp with ⟨ares, ev2⟩
          cases ares <;> simp
        · rw [if_neg hc]
          simp

/-- Helper: once the URL check passes and the downloader binary resolves, a
downloader process is spawned with the built argument list, whatever the
spawn's outcome. -/
theorem download_spawn_recorded (e : Env) (url output_dir yp : String)
    (hv : (!(strContains url "youtube.com") && !(strContains url "youtu.be")) = false)
    (hyp : get_bundled_ytdlp_path e = .ok yp) :
    Event.spawn yp (ytdlpArgs (output_dir ++ "/%(title)s.%(ext)s") url) ∈
      (download_youtube_audio e url output_dir).2 := by
  unfold download_youtube_audio
  rw [hv, hyp]
  simp only [Bool.false_eq_true, if_false]
  cases hrun : e.run yp (ytdlpArgs (output_dir ++ "/%(title)s.%(ext)s") url) with
  | error osErr => simp [hrun]
  | ok r =>
    cases hok : r.success with
    | false => simp [hrun, hok]
    | true =>
      simp only [hrun, hok, Bool.not_true, Bool.false_eq_true, if_false]
      set fp := lastCandidate r.stdout with hfp
      by_cases hc : (fp != "" && e.fsExists fp) = true
      · rw [if_pos hc]
        rcases hai : get_audio_info e fp with ⟨ares, ev2⟩
        cases ares <;> simp
      · rw [if_neg hc]
        simp

/-- C4: a URL lacking both recognized domain patterns is rejected with the
invalid-URL error and an empty effect trace (no process spawned); for a URL
containing a recognized pattern whose downloader binary resolves, a downloader
process is spawned and its argument list contains the URL and the output
filename template built from `output_dir`. -/
theorem C4_url_gatekeeping (e : Env) (url output_dir yp : String) :
    (strContains url "youtube.com" = false → strContains url "youtu.be" = false →
      download_youtube_audio e url output_dir = (.error "Invalid YouTube URL", [])) ∧
    ((strContains url "youtube.com" || strContains url "youtu.be") = true →
      get_bundled_ytdlp_path e = .ok yp →
      url ∈ ytdlpArgs (output_dir ++ "/%(title)s.%(ext)s") url ∧
      (output_dir ++ "/%(title)s.%(ext)s") ∈ ytdlpArgs (output_dir ++ "/%(title)s.%(ext)s") url ∧
      Event.spawn yp (ytdlpArgs (output_dir ++ "/%(title)s.%(ext)s") url) ∈
        (download_youtube_audio e url output_dir).2) := by
  constructor
  · intro h1 h2
    simp [download_youtube_audio, h1, h2]
  · intro hv hyp
    have hv' : (!(strContains url "youtube.com") && !(strContains url "youtu.be")) = false := by
      rcases Bool.or_eq_true_iff.mp hv with h | h <;> simp [h]
    exact ⟨by simp [ytdlpArgs], by simp [ytdlpArgs],
      download_spawn_recorded e url output_dir yp hv' hyp⟩

/-- C4 witness: both halves of the theorem at concrete inputs — an unrelated
URL is rejected with no effects, and a youtube.com URL leads to a spawn whose
arguments carry the URL and the template. -/
theorem C4_url_gatekeeping_witness :
    download_youtube_audio envDl "https://example.com/watch" "/dl" =
      (.error "Invalid YouTube URL", []) ∧
    ("https://www.youtube.com/watch?v=abc" ∈
        ytdlpArgs "/dl/%(title)s.%(ext)s" "https://www.youtube.com/watch?v=abc" ∧
      "/dl/%(title)s.%(ext)s" ∈
        ytdlpArgs "/dl/%(title)s.%(ext)s" "https://www.youtube.com/watch?v=abc" ∧
      Event.spawn "/app/yt-dlp"
          (ytdlpArgs "/dl/%(title)s.%(ext)s" "https://www.youtube.com/watch?v=abc") ∈
        (download_youtube_audio envDl "https://www.youtube.com/watch?v=abc" "/dl").2) :=
  ⟨(C4_url_gatekeeping envDl "https://example.com/watch" "/dl" "/app/yt-dlp").1
      (by decide) (by decide),
   (C4_url_gatekeeping envDl "https://www.youtube.com/watch?v=abc" "/dl" "/app/yt-dlp").2
      (by decide) rfl⟩

/-- C10: the URL validation accepts exactly the strings containing
`youtube.com` or `youtu.be` as a case-sensitive substring anywhere: the
invalid-URL rejection (with empty trace) happens precisely when neither
substring occurs, and every accepted URL reaches downloader-binary
resolution; in particular a URL whose host is an unrelated domain but whose
query string contains `youtu.be` passes validation and the downloader is
invoked with that URL among its arguments. -/
theorem C10_accepts_exactly_substring_matches (e : Env) (url output_dir : String) :
    (download_youtube_audio e url output_dir = (.error "Invalid YouTube URL", []) ↔
      strContains url "youtube.com" = false ∧ strContains url "youtu.be" = false) ∧
    (strContains "https://evil.example.com/page?track=youtu.be" "youtu.be" = true ∧
      Event.spawn "/app/yt-dlp"
          (ytdlpArgs "/dl/%(title)s.%(ext)s" "https://evil.example.com/page?track=youtu.be") ∈
        (download_youtube_audio envDl "https://evil.example.com/page?track=youtu.be" "/dl").2) := by
  constructor
  · constructor
    · intro h
      by_cases h1 : strContains url "youtube.com" = false
      · by_cases h2 : strContains url "youtu.be" = false
        · exact ⟨h1, h2⟩
        · exfalso
          have hv : (!(strContains url "youtube.com") && !(strContains url "youtu.be")) = false := by
            simp [Bool.not_eq_false] at h2
            simp [h2]
          have := download_resolves_first e url output_dir hv
          rw [h] at this
          simp at this
      · exfalso
        have hv : (!(strContains url "youtube.com") && !(strContains url "youtu.be")) = false := by
          simp [Bool.not_eq_false] at h1
          simp [h1]
        have := download_resolves_first e url output_dir hv
        rw [h] at this
        simp at this
    · intro ⟨h1, h2⟩
      simp [download_youtube_audio, h1, h2]
  · exact ⟨by decide,
      download_spawn_recorded envDl "https://evil.example.com/page?track=youtu.be" "/dl"
        "/app/yt-dlp" (by decide) rfl⟩

/-- C10 witness: the characterization applied to a concrete rejected URL. -/
theorem C10_accepts_exactly_substring_matches_witness :
    download_youtube_audio envDl "https://vimeo.com/123" "/dl" =
      (.error "Invalid YouTube URL", []) :=
  ((C10_accepts_exactly_substring_matches envDl "https://vimeo.com/123" "/dl").1).mpr
    (by decide)

/-- C6: whenever the downloader exits with status zero, the download returns a
success result, never an error; and when the recovered candidate path is empty
or does not exist on disk, or when metadata enrichment of an existing
candidate fails, the result still reports success, with an absent (`none`)
file descriptor. -/
theorem C6_exit_zero_trusted (e : Env) (url output_dir yp : String) (r : ProcResult)
    (hv : (!(strContains url "youtube.com") && !(strContains url "youtu.be")) = false)
    (hyp : get_bundled_ytdlp_path e = .ok yp)
    (hrun : e.run yp (ytdlpArgs (output_dir ++ "/%(title)s.%(ext)s") url) = .ok r)
    (hok : r.success = true) :
    ∃ res : DownloadResult,
      (download_youtube_audio e url output_dir).1 = .ok res ∧
      res.success = true ∧
      res.message = "Successfully downloaded: " ++ url ∧
      ((lastCandidate r.stdout != "" && e.fsExists (lastCandidate r.stdout)) = false →
        res.file = none) ∧
      (∀ m, e.metadata (lastCandidate r.stdout) = .error m → res.file = none) := by
  unfold download_youtube_audio
  rw [hv, hyp]
  simp only [Bool.false_eq_true, if_false]
  rw [hrun]
  simp only [hok, Bool.not_true, Bool.false_eq_true, if_false]
  set fp := lastCandidate r.stdout with hfp
  by_cases hc : (fp != "" && e.fsExists fp) = true
  · rw [if_pos hc]
    have hfse : e.fsExists fp = true := by
      have hc' : (fp != "") = true ∧ e.fsExists fp = true := by simpa using hc
      exact hc'.2
    rcases hai : get_audio_info e fp with ⟨ares, ev2⟩
    cases ares with
    | ok info =>
      refine ⟨⟨true, "Successfully downloaded: " ++ url, some info⟩, by simp, rfl, rfl,
        fun hfalse => absurd hc (by simp [hfalse]), fun m hm => ?_⟩
      exfalso
      rw [get_audio_info, hfse] at hai
      simp [hm] at hai
    | error msg =>
      exact ⟨⟨true, "Successfully downloaded: " ++ url, none⟩, by simp, rfl, rfl,
        fun _ => rfl, fun _ _ => rfl⟩
  · rw [if_neg hc]
    exact ⟨⟨true, "Successfully downloaded: " ++ url, none⟩, by simp, rfl, rfl,
      fun _ => rfl, fun _ _ => rfl⟩

/-- C6 witness: the theorem applied to a downloader that exits 0 printing no
existing path — the result is success with an absent file descriptor. -/
theorem C6_exit_zero_trusted_witness :
    ∃ res : DownloadResult,
      (download_youtube_audio envDlNoFile "https://youtu.be/abc" "/dl").1 = .ok res ∧
      res.success = true ∧
      res.message = "Successfully downloaded: " ++ "https://youtu.be/abc" ∧
      ((lastCandidate "[download] 100%\ndone" != "" &&
          envDlNoFile.fsExists (lastCandidate "[download] 100%\ndone")) = false →
        res.file = none) ∧
      (∀ m, envDlNoFile.metadata (lastCandidate "[download] 100%\ndone") = .error m →
        res.file = none) :=
  C6_exit_zero_trusted envDlNoFile "https://youtu.be/abc" "/dl" "/app/yt-dlp"
    ⟨true, "[download] 100%\ndone", ""⟩ (by decide) rfl rfl rfl

/-- `splitCh` never returns an empty list of segments. -/
theorem splitCh_ne_nil (sep : Char) (l : List Char) : splitCh sep l ≠ [] := by
  induction l with
  | nil => simp [splitCh]
  | cons c t ih =>
    simp only [splitCh]
    split
    · simp
    · cases h : splitCh sep t <;> simp

/-- Splitting a separator-free list yields the single segment holding the
whole list. -/
theorem splitCh_eq_single (sep : Char) (l : List Char) (h : sep ∉ l) :
    splitCh sep l = [l] := by
  induction l with
  | nil => rfl
  | cons c t ih =>
    simp only [List.mem_cons, not_or] at h
    simp only [splitCh]
    rw [if_neg (fun hc => h.1 hc.symm), ih h.2]

/-- Splitting a list containing the separator yields at least two segments. -/
theorem two_le_splitCh_length (sep : Char) (l : List Char) (h : sep ∈ l) :
    2 ≤ (splitCh sep l).length := by
  induction l with
  | nil => cases h
  | cons c t ih =>
    simp only [splitCh]
    by_cases hc : c = sep
    · rw [if_pos hc]
      cases hq : splitCh sep t with
      | nil => exact absurd hq (splitCh_ne_nil sep t)
      | cons x xs => simp
    · rw [if_neg hc]
      have hmem : sep ∈ t := by
        rcases List.mem_cons.mp h with h1 | h2
        · exact absurd h1.symm hc
        · exact h2
      cases hq : splitCh sep t with
      | nil => exact absurd hq (splitCh_ne_nil sep t)
      | cons x xs =>
        have h2 := ih hmem
        rw [hq] at h2
        simpa using h2

/-- The last segment of a split is the part after the last separator
occurrence. -/
theorem getLast?_splitCh_append (sep : Char) (a b : List Char) (hb : sep ∉ b) :
    (splitCh sep (a ++ sep :: b)).getLast? = some b := by
  induction a with
  | nil =>
    rw [List.nil_append]
    simp only [splitCh, if_pos rfl]
    rw [splitCh_eq_single sep b hb]
    rfl
  | cons c t ih =>
    rw [List.cons_append]
    simp only [splitCh]
    by_cases hc : c = sep
    · rw [if_pos hc]
      cases hq : splitCh sep (t ++ sep :: b) with
      | nil => exact absurd hq (splitCh_ne_nil sep _)
      | cons x xs =>
        rw [List.getLast?_cons_cons, ← hq]
        exact ih
    · rw [if_neg hc]
      cases hq : splitCh sep (t ++ sep :: b) with
      | nil => exact absurd hq (splitCh_ne_nil sep _)
      | cons x xs =>
        have hlen : 2 ≤ (splitCh sep (t ++ sep :: b)).length :=
          two_le_splitCh_length sep _ (by simp)
        rw [hq] at ih hlen
        cases xs with
        | nil => simp at hlen
        | cons y ys =>
          rw [List.getLast?_cons_cons]
          rw [List.getLast?_cons_cons] at ih
          exact ih

/-- A nonempty list unchanged by `dropWhile` stays unchanged when extended on
the right. -/
theorem dropWhile_append_of_self (p : Char → Bool) (d z : List Char)
    (hd : d ≠ []) (hself : List.dropWhile p d = d) :
    List.dropWhile p (d ++ z) = d ++ z := by
  cases d with
  | nil => exact absurd rfl hd
  | cons c t =>
    have hc : p c = false := by
      by_contra hpc
      rw [List.dropWhile_cons, if_pos (by simpa using hpc)] at hself
      have hlen := congrArg List.length hself
      have hle := (List.dropWhile_sublist (l := t) p).length_le
      simp at hlen
      omega
    simp [List.dropWhile_cons, hc]

/-- Where leading-whitespace stripping can land inside a line-structured list:
either everything through the final newline goes (leaving the self-trimmed
tail `b`), or a suffix survives that still ends in `'\n' :: b`. -/
theorem trimL_append_cases (a b : List Char) (hb : List.dropWhile isWs b = b) :
    trimL (a ++ '\n' :: b) = b ∨ ∃ x, trimL (a ++ '\n' :: b) = x ++ '\n' :: b := by
  induction a with
  | nil =>
    left
    rw [List.nil_append]
    show List.dropWhile isWs ('\n' :: b) = b
    rw [List.dropWhile_cons, if_pos (by decide)]
    exact hb
  | cons c t ih =>
    rw [List.cons_append]
    by_cases hc : isWs c = true
    · rcases ih with h | ⟨x, h⟩
      · left
        show List.dropWhile isWs (c :: (t ++ '\n' :: b)) = b
        rw [List.dropWhile_cons, if_pos hc]
        exact h
      · right
        refine ⟨x, ?_⟩
        show List.dropWhile isWs (c :: (t ++ '\n' :: b)) = x ++ '\n' :: b
        rw [List.dropWhile_cons, if_pos hc]
        exact h
    · right
      refine ⟨c :: t, ?_⟩
      show List.dropWhile isWs (c :: (t ++ '\n' :: b)) = (c :: t) ++ '\n' :: b
      rw [List.dropWhile_cons, if_neg hc]
      rfl

/-- The candidate recovered by `lastCandidate` from a line-structured stdout:
for any earlier output `a`, final line `p` (newline-free, nonempty, trimmed on
both sides) and trailing whitespace `w`, the recovered candidate is exactly
`p`. -/
theorem lastCandidate_of_final_line (a w : List Char) (p : String)
    (hnl : '\n' ∉ p.data) (hne : p.data ≠ [])
    (hL : List.dropWhile isWs p.data = p.data)
    (hR : List.dropWhile isWs p.data.reverse = p.data.reverse)
    (hw : ∀ c ∈ w, isWs c = true) :
    lastCandidate ⟨a ++ '\n' :: (p.data ++ w)⟩ = p := by
  have hpdw : List.dropWhile isWs (p.data ++ w) = p.data ++ w :=
    dropWhile_append_of_self isWs p.data w hne hL
  have hpr_ne : p.data.reverse ≠ [] := by simpa using hne
  have htR : trimR p.data = p.data := by
    simp [trimR, hR]
  have htC : trimChars p.data = p.data := by
    simp [trimChars, trimL, hL, htR]
  have hdropw : ∀ z : List Char,
      List.dropWhile isWs (w.reverse ++ z) = List.dropWhile isWs z := by
    intro z
    exact List.dropWhile_append_of_pos (by simpa using hw)
  have key : trimChars (a ++ '\n' :: (p.data ++ w)) = p.data ∨
      ∃ x, trimChars (a ++ '\n' :: (p.data ++ w)) = x ++ '\n' :: p.data := by
    rcases trimL_append_cases a (p.data ++ w) hpdw with h | ⟨x, h⟩
    · left
      unfold trimChars
      rw [h]
      show (List.dropWhile isWs (p.data ++ w).reverse).reverse = p.data
      rw [List.reverse_append, hdropw, hR, List.reverse_reverse]
    · right
      refine ⟨x, ?_⟩
      unfold trimChars
      rw [h]
      rw [show (x ++ '\n' :: (p.data ++ w)) = (x ++ '\n' :: p.data) ++ w by simp]
      show (List.dropWhile isWs ((x ++ '\n' :: p.data) ++ w).reverse).reverse
          = x ++ '\n' :: p.data
      rw [List.reverse_append, hdropw]
      have hu : (x ++ '\n' :: p.data).reverse = p.data.reverse ++ ('\n' :: x.reverse) := by
        simp
      rw [hu, dropWhile_append_of_self isWs p.data.reverse ('\n' :: x.reverse) hpr_ne hR,
          ← hu, List.reverse_reverse]
  unfold lastCandidate
  rcases key with h | ⟨x, h⟩
  · show (match (splitNl (trimChars (a ++ '\n' :: (p.data ++ w)))).getLast? with
      | some l => (⟨trimChars l⟩ : String)
      | none => "") = p
    rw [h]
    unfold splitNl
    rw [splitCh_eq_single '\n' p.data hnl]
    show (⟨trimChars p.data⟩ : String) = p
    rw [htC]
  · show (match (splitNl (trimChars (a ++ '\n' :: (p.data ++ w)))).getLast? with
      | some l => (⟨trimChars l⟩ : String)
      | none => "") = p
    rw [h]
    unfold splitNl
    rw [getLast?_splitCh_append '\n' x p.data hnl]
    show (⟨trimChars p.data⟩ : String) = p
    rw [htC]

/-- C5: when the downloader exits with status zero, the last non-blank line
of its stdout (trimmed; arbitrary progress lines may precede it and trailing
whitespace may follow it) is the candidate resulting file path; if that path
exists on disk and its metadata enrichment succeeds, the result is success
with a file descriptor whose `path` equals that line. -/
theorem C5_last_stdout_line_is_result
    (e : Env) (url output_dir yp : String) (r : ProcResult)
    (a w : List Char) (p : String) (sz : Nat)
    (hv : (!(strContains url "youtube.com") && !(strContains url "youtu.be")) = false)
    (hyp : get_bundled_ytdlp_path e = .ok yp)
    (hrun : e.run yp (ytdlpArgs (output_dir ++ "/%(title)s.%(ext)s") url) = .ok r)
    (hok : r.success = true)
    (hstdout : r.stdout.data = a ++ '\n' :: (p.data ++ w))
    (hnl : '\n' ∉ p.data) (hne : p.data ≠ [])
    (hL : List.dropWhile isWs p.data = p.data)
    (hR : List.dropWhile isWs p.data.reverse = p.data.reverse)
    (hw : ∀ c ∈ w, isWs c = true)
    (hfs : e.fsExists p = true)
    (hmeta : e.metadata p = .ok sz) :
    (download_youtube_audio e url output_dir).1 =
      .ok ⟨true, "Successfully downloaded: " ++ url,
           some ⟨(rustFileName p).getD "Unknown", p, sz,
                 (get_audio_duration e p).1.toOption,
                 (rustExtension p).map strUpper⟩⟩ := by
  have hcand : lastCandidate r.stdout = p := by
    have hs : r.stdout = ⟨a ++ '\n' :: (p.data ++ w)⟩ := by
      have : r.stdout = ⟨r.stdout.data⟩ := rfl
      rw [this, hstdout]
    rw [hs]
    exact lastCandidate_of_final_line a w p hnl hne hL hR hw
  have hpne : (p != "") = true := by
    have : p ≠ "" := by
      intro hp
      rw [hp] at hne
      exact hne rfl
    simpa using this
  have hai : get_audio_info e p =
      (.ok ⟨(rustFileName p).getD "Unknown", p, sz,
            (get_audio_duration e p).1.toOption,
            (rustExtension p).map strUpper⟩, (get_audio_duration e p).2) := by
    rw [get_audio_info, hfs]
    simp [hmeta]
  unfold download_youtube_audio
  rw [hv, hyp]
  simp only [Bool.false_eq_true, if_false]
  rw [hrun]
  simp only [hok, Bool.not_true, Bool.false_eq_true, if_false]
  rw [hcand]
  rw [if_pos (by rw [hpne, hfs]; rfl)]
  rw [hai]

/-- C5 witness: the theorem applied to a simulated downloader that exits 0 and
prints three lines, only the last being an existing path; the result carries a
file descriptor whose path is that last line. -/
theorem C5_last_stdout_line_is_result_witness :
    (download_youtube_audio envDl "https://www.youtube.com/watch?v=xyz" "/dl").1 =
      .ok ⟨true, "Successfully downloaded: " ++ "https://www.youtube.com/watch?v=xyz",
           some ⟨(rustFileName "/dl/song.mp3").getD "Unknown", "/dl/song.mp3", 1234,
                 (get_audio_duration envDl "/dl/song.mp3").1.toOption,
                 (rustExtension "/dl/song.mp3").map strUpper⟩⟩ :=
  C5_last_stdout_line_is_result envDl "https://www.youtube.com/watch?v=xyz" "/dl"
    "/app/yt-dlp" ⟨true, "log one\nlog two\n/dl/song.mp3", ""⟩
    ("log one\nlog two").data [] "/dl/song.mp3" 1234
    (by decide) rfl rfl rfl (by decide) (by decide) (by decide) (by decide)
    (by decide) (by intro c hc; cases hc) rfl rfl

end AudioKeyConverter
